import Mathlib

/-!
A shallow embedding of the pdf2txt layout-reconstruction core (src/lib.ts) and
its caller-facing entry point, together with theorems settling the spec claims.

Modelling conventions:
* JavaScript `number` coordinates and configuration values are modelled as `ℚ`
  (the spec treats them as reals; every operation the code performs on them —
  subtraction, absolute value, comparison, division, `Math.round` — is exact
  rational arithmetic).
* `Math.round` is `⌊x + 1/2⌋` (JS rounds half toward +∞), modelled by `jsRound`.
* `Array.prototype.sort` is modelled as a stable insertion sort (`sortJS`).
  ECMAScript requires sort stability; for consistent comparators every stable
  sort produces the same output, so this is faithful there, and on two-element
  arrays it coincides with any comparison sort.
* `String.length` counts code points rather than UTF-16 units; all strings in
  the claims are ASCII, where the two coincide.
* The `console.error` diagnostic channel of the debug instrumentation is
  modelled as an out-of-band list of `DebugRecord`s returned next to the
  primary output, so that debug-neutrality is expressible.
-/

/-! ### Small string/list helpers -/

/-- `" ".repeat n` from JS. -/
def spacesStr (n : ℕ) : String := String.mk (List.replicate n ' ')

/-- Trailing-whitespace removal on a character list. -/
def trimEndList (l : List Char) : List Char :=
  (l.reverse.dropWhile Char.isWhitespace).reverse

/-- JS `String.prototype.trimEnd` (restricted to ASCII whitespace). -/
def trimEnd (s : String) : String := String.mk (trimEndList s.data)

/-- Whether `pat` is an initial segment of `l`. -/
def beginsWith : List Char → List Char → Bool
  | [], _ => true
  | _ :: _, [] => false
  | p :: ps, c :: cs => p == c && beginsWith ps cs

/-- Number of (possibly overlapping) occurrences of `pat` inside `l`. -/
def countOccur (pat : List Char) : List Char → ℕ
  | [] => if pat.isEmpty then 1 else 0
  | c :: rest => (if beginsWith pat (c :: rest) then 1 else 0) + countOccur pat rest

/-- Concatenation of the images of a list under a string-valued function. -/
def concatMap (f : α → String) : List α → String
  | [] => ""
  | a :: l => f a ++ concatMap f l

/-- JS `Math.round`: round half toward positive infinity. -/
def jsRound (q : ℚ) : ℤ := ((q + 1/2) : ℚ).floor

/-! ### Data model (src/lib.ts types) -/

/-- `TextItem` from src/lib.ts: one positioned run of text.  The `dir` and
`transform` fields of the source are carried by the upstream parser and never
read by the layout algorithm; they are omitted here. -/
structure TextItem where
  str : String
  width : ℚ
  height : ℚ
  fontName : String
  hasEOL : Bool
  x : ℚ
  y : ℚ
deriving Repr, DecidableEq

/-- Page viewport dimensions (informational only). -/
structure Viewport where
  width : ℚ
  height : ℚ
  scale : ℚ
deriving Repr, DecidableEq

/-- `PageLayoutData` from src/lib.ts. -/
structure PageLayoutData where
  pageNumber : ℕ
  textItems : List TextItem
  viewport : Viewport
deriving Repr, DecidableEq

/-- One page as supplied by the pdf.js collector loop inside
`extractTextFromPdf` (its text items plus the page's viewport). -/
structure CollectedPage where
  textItems : List TextItem
  viewport : Viewport
deriving Repr, DecidableEq

/-- `PdfExtractionOptions` from src/lib.ts: all fields optional. -/
structure PdfExtractionOptions where
  includeLayout : Option Bool := none
  yTolerance : Option ℚ := none
  characterWidthDivisor : Option ℚ := none
  enableDebug : Option Bool := none
deriving Repr, DecidableEq

/-- `Required<PdfExtractionOptions>` after merging with the defaults,
as built by the spread `{ includeLayout: false, yTolerance: 2,
characterWidthDivisor: 4.0, enableDebug: false, ...options }`. -/
structure ResolvedOptions where
  includeLayout : Bool
  yTolerance : ℚ
  characterWidthDivisor : ℚ
  enableDebug : Bool
deriving Repr, DecidableEq

/-- Default-merging of the option record performed at the top of
`extractTextFromPdf`. -/
def resolveOptions (o : PdfExtractionOptions) : ResolvedOptions where
  includeLayout := o.includeLayout.getD false
  yTolerance := o.yTolerance.getD 2
  characterWidthDivisor := o.characterWidthDivisor.getD 4
  enableDebug := o.enableDebug.getD false

/-- One record written to the out-of-band diagnostic channel
(`console.error`) by the debug instrumentation: the item's text, raw y and x,
and the size of the row group it joined. -/
structure DebugRecord where
  str : String
  y : ℚ
  x : ℚ
  groupSize : ℕ
deriving Repr, DecidableEq

/-! ### JS array sort -/

/-- Insert into a sorted list, placing `a` before the first element `b` with
`le a b` (stable insertion). -/
def orderedInsertB (le : α → α → Bool) (a : α) : List α → List α
  | [] => [a]
  | b :: l => if le a b then a :: b :: l else b :: orderedInsertB le a l

/-- Stable sort used to model `Array.prototype.sort(cmp)`, with
`le a b = (cmp a b ≤ 0)`. -/
def sortJS (le : α → α → Bool) : List α → List α
  | [] => []
  | a :: l => orderedInsertB le a (sortJS le l)

/-- The advisory sort comparator of `reconstructLayout`:
`cmp(a,b) = |b.y − a.y| < 10 ? a.x − b.x : b.y − a.y`, expressed as the
(keep-in-order) relation `cmp(a,b) ≤ 0`. -/
def itemLE (a b : TextItem) : Bool :=
  let yDiff := b.y - a.y
  if |yDiff| < 10 then decide (a.x ≤ b.x) else decide (yDiff ≤ 0)

/-! ### Row clustering (first pass of reconstructLayout) -/

/-- One step of the clustering loop: scan the open groups in creation order;
append the item to the first group whose anchor is strictly within
`tol`; otherwise `yGroups.set(item.y, [item])` — which overwrites an entry
with the identical key in place (only reachable when `tol ≤ 0`) or appends a
new group at the end. -/
def addToGroups (tol : ℚ) : List (ℚ × List TextItem) → TextItem → List (ℚ × List TextItem)
  | [], item => [(item.y, [item])]
  | (gy, gitems) :: rest, item =>
    if |item.y - gy| < tol then (gy, gitems ++ [item]) :: rest
    else if item.y = gy then (gy, [item]) :: rest
    else (gy, gitems) :: addToGroups tol rest item

/-- The whole first pass: fold the clustering step over the processed items. -/
def clusterItems (tol : ℚ) (items : List TextItem) : List (ℚ × List TextItem) :=
  items.foldl (addToGroups tol) []

/-- Second pass: sort the groups by descending anchor y
(`([a], [b]) => b - a`), then sort each group's members by ascending x
(`(a, b) => a.x - b.x`), yielding the page's lines. -/
def linesOf (groups : List (ℚ × List TextItem)) : List (List TextItem) :=
  (sortJS (fun a b : ℚ × List TextItem => decide (b.1 ≤ a.1)) groups).map
    (fun g => sortJS (fun a b : TextItem => decide (a.x ≤ b.x)) g.2)

/-- Lines produced for a page's item list: advisory sort, clustering, group
ordering, and within-row x ordering. -/
def pageLines (tol : ℚ) (items : List TextItem) : List (List TextItem) :=
  linesOf (clusterItems tol (sortJS itemLE items))

/-! ### Horizontal spacing synthesis -/

/-- `Math.min(...page.textItems.map(item => item.x))`; only evaluated on
non-empty pages (guarded by the `sortedItems.length === 0` early `continue`). -/
def leftmostX : List TextItem → ℚ
  | [] => 0
  | i :: rest => rest.foldl (fun m it => min m it.x) i.x

/-- `targetPos` of an item: `Math.round((item.x - leftmostX) / characterWidthDivisor)`. -/
def targetPos (lm cwd : ℚ) (item : TextItem) : ℤ :=
  jsRound ((item.x - lm) / cwd)

/-- The per-line loop of `reconstructLayout`, carrying `lastPos`: emit
`max(0, targetPos − lastPos)` spaces, then the item's content; set
`lastPos = targetPos + str.length`; if a next item exists whose `targetPos`
exceeds the new `lastPos` by strictly between 0 and 3, emit one extra space
and advance `lastPos` by one. -/
def renderLineGo (lm cwd : ℚ) : ℤ → List TextItem → String
  | _, [] => ""
  | lastPos, item :: rest =>
    let tp := targetPos lm cwd item
    let spacesNeeded : ℤ := max 0 (tp - lastPos)
    let piece := spacesStr spacesNeeded.toNat ++ item.str
    let lastPos1 : ℤ := tp + (item.str.length : ℤ)
    match rest with
    | [] => piece
    | next :: _ =>
      let nextTp := targetPos lm cwd next
      let gapSize := nextTp - (tp + (item.str.length : ℤ))
      if 0 < gapSize ∧ gapSize < 3 then
        piece ++ " " ++ renderLineGo lm cwd (lastPos1 + 1) rest
      else
        piece ++ renderLineGo lm cwd lastPos1 rest

/-- A rendered line before final cleanup (`lastPos` starts at 0). -/
def renderLine (lm cwd : ℚ) (line : List TextItem) : String :=
  renderLineGo lm cwd 0 line

/-- Third pass over the page's lines: skip empty lines, emit each line with
trailing whitespace stripped and a newline appended. -/
def renderPageBody (tol cwd : ℚ) (items : List TextItem) : String :=
  let lm := leftmostX items
  (pageLines tol items).foldl
    (fun acc line => if line.isEmpty then acc else acc ++ (trimEnd (renderLine lm cwd line) ++ "\n"))
    ""

/-- Diagnostic records emitted while converting groups to lines: one record
per item of each (x-sorted) group, in group order, reporting the group size. -/
def pageDebugRecords (tol : ℚ) (enableDebug : Bool) (items : List TextItem) : List DebugRecord :=
  if enableDebug then
    ((pageLines tol items).map
      (fun line => line.map (fun it => DebugRecord.mk it.str it.y it.x line.length))).flatten
  else []

/-- The separator block emitted in front of a page with `pageNumber > 1`:
`"\n\n" + "=".repeat(80) + "\n" + "Page <n>\n" + "=".repeat(80) + "\n\n"`. -/
def pageBanner (n : ℕ) : String :=
  "\n\n" ++ String.mk (List.replicate 80 '=') ++ "\n"
    ++ "Page " ++ toString n ++ "\n"
    ++ String.mk (List.replicate 80 '=') ++ "\n\n"

/-- The loop body of `reconstructLayout` for a single page: append the banner
for pages numbered above 1, skip pages with no items (early `continue`), and
otherwise append the page body and its diagnostic records. -/
def layoutStep (opts : ResolvedOptions) (acc : String × List DebugRecord)
    (page : PageLayoutData) : String × List DebugRecord :=
  let text0 := if 1 < page.pageNumber then acc.1 ++ pageBanner page.pageNumber else acc.1
  let sortedItems := sortJS itemLE page.textItems
  if sortedItems.isEmpty then (text0, acc.2)
  else
    (text0 ++ renderPageBody opts.yTolerance opts.characterWidthDivisor page.textItems,
      acc.2 ++ pageDebugRecords opts.yTolerance opts.enableDebug page.textItems)

/-- `reconstructLayout` from src/lib.ts: fold the per-page step over all pages;
the second component collects the diagnostic channel. -/
def reconstructLayout (pageLayouts : List PageLayoutData) (opts : ResolvedOptions) :
    String × List DebugRecord :=
  pageLayouts.foldl (layoutStep opts) ("", [])

/-! ### Caller-facing entry point -/

/-- The flat-text accumulation loop of `extractTextFromPdf`:
`extractedText += item.str; if (item.hasEOL) extractedText += "\n";`
across all pages in parse order. -/
def extractedTextOf (doc : List CollectedPage) : String :=
  doc.foldl
    (fun acc p =>
      p.textItems.foldl (fun a it => a ++ it.str ++ (if it.hasEOL then "\n" else "")) acc)
    ""

/-- `PdfLayoutData` from src/lib.ts (the metadata/version passthrough fields,
which the core copies verbatim from the upstream parser, are omitted). -/
structure PdfLayoutData where
  text : String
  layoutText : String
  pages : ℕ
  pageLayouts : List PageLayoutData
  textLength : ℕ
  totalTextItems : ℕ
deriving Repr, DecidableEq

/-- `PdfExtractionResult = string | PdfLayoutData`. -/
inductive PdfExtractionResult where
  | flat (text : String)
  | layout (data : PdfLayoutData)
deriving Repr, DecidableEq

/-- The pure part of `extractTextFromPdf` once the pages have been
materialized by pdf.js: merge the option defaults, accumulate the flat text,
number the pages by the 1-based loop counter, and either return the flat text
or the structured layout bundle.  The source performs no validation of the
configuration on any path. -/
def extractTextFromPdf (doc : List CollectedPage) (options : PdfExtractionOptions) :
    PdfExtractionResult :=
  let opts := resolveOptions options
  let extractedText := extractedTextOf doc
  let totalTextItems := doc.foldl (fun n p => n + p.textItems.length) 0
  if opts.includeLayout then
    let pageLayouts := doc.enum.map
      (fun p => PageLayoutData.mk (p.1 + 1) p.2.textItems p.2.viewport)
    let layoutText := (reconstructLayout pageLayouts opts).1
    .layout (PdfLayoutData.mk extractedText layoutText doc.length pageLayouts
      extractedText.length totalTextItems)
  else
    .flat extractedText

/-- The text component of either result variant. -/
def resultText : PdfExtractionResult → String
  | .flat t => t
  | .layout d => d.text

/-! ### Definitions written from the spec's words, for comparison -/

/-- Spec-side line assembly, following the wording of §4.2 and claim C4: the
cursor is set to `targetColumn + length(content)` after each fragment; exactly
one extra space is emitted iff the next fragment's `targetColumn` minus the
cursor (the `bridge`) is strictly between 0 and 3, and then the cursor
advances by exactly 1. -/
def renderLineClaimGo (lm cwd : ℚ) : ℤ → List TextItem → String
  | _, [] => ""
  | cursor, frag :: rest =>
    let targetColumn := targetPos lm cwd frag
    let emitted := spacesStr (max 0 (targetColumn - cursor)).toNat ++ frag.str
    let cursor1 : ℤ := targetColumn + (frag.str.length : ℤ)
    match rest with
    | [] => emitted
    | next :: _ =>
      let bridge := targetPos lm cwd next - cursor1
      if 0 < bridge ∧ bridge < 3 then
        emitted ++ " " ++ renderLineClaimGo lm cwd (cursor1 + 1) rest
      else
        emitted ++ renderLineClaimGo lm cwd cursor1 rest

/-- Spec-side advisory sort order claimed in §4.1: descending `y` as primary
key, ascending `x` as secondary key, expressed as a keep-in-order relation. -/
def specSortLE (a b : TextItem) : Bool :=
  if a.y = b.y then decide (a.x ≤ b.x) else decide (b.y ≤ a.y)

/-- The contribution of one page to the reconstructed document text:
its banner (when numbered above 1) followed by its body (empty for a page
with no text items). -/
def pageChunk (opts : ResolvedOptions) (page : PageLayoutData) : String :=
  (if 1 < page.pageNumber then pageBanner page.pageNumber else "")
    ++ (if (sortJS itemLE page.textItems).isEmpty then ""
        else renderPageBody opts.yTolerance opts.characterWidthDivisor page.textItems)

/-- Decidable well-formedness of one row-group: it is non-empty, its anchor is
the y-coordinate of its first member, and every member's y lies strictly
within `tol` of the anchor. -/
def groupWellFormed (tol : ℚ) (g : ℚ × List TextItem) : Bool :=
  (match g.2 with
    | [] => false
    | hd :: _ => decide (g.1 = hd.y))
  && g.2.all (fun m => decide (|m.y - g.1| < tol))

/-! ### Concrete inputs used by the claims' scenarios -/

/-- A text item with the given content and position and inert remaining
fields. -/
def mkItem (s : String) (px py : ℚ) : TextItem :=
  ⟨s, 0, 0, "F1", false, px, py⟩

/-- A generic viewport (informational only, never read by the layout math). -/
def vp0 : Viewport := ⟨612, 792, 1⟩

/-- The 80-character separator rule of the page banner. -/
def eqRule : String := String.mk (List.replicate 80 '=')

/-- The fragments of the spec's §8 concrete scenario. -/
def nameItem : TextItem := mkItem "Name" 0 100

/-- Second fragment of the §8 concrete scenario. -/
def ageItem : TextItem := mkItem "Age" 40 100

/-- Three one-fragment pages "A"/"B"/"C" at the same position (§8 page-banner
scenario). -/
def abcPages : List PageLayoutData :=
  [⟨1, [mkItem "A" 10 20], vp0⟩, ⟨2, [mkItem "B" 10 20], vp0⟩, ⟨3, [mkItem "C" 10 20], vp0⟩]

/-- The literal page-separator pattern: a line break, the 80-character rule,
and the start of the page label. -/
def bannerPattern : List Char := ("\n" ++ eqRule ++ "\nPage ").data

/-! ### Helper lemmas -/

theorem orderedInsertB_length (le : α → α → Bool) (a : α) (l : List α) :
    (orderedInsertB le a l).length = l.length + 1 := by
  induction l with
  | nil => rfl
  | cons b l ih => by_cases h : le a b <;> simp [orderedInsertB, h, ih]

theorem sortJS_length (le : α → α → Bool) (l : List α) :
    (sortJS le l).length = l.length := by
  induction l with
  | nil => rfl
  | cons a l ih => simp [sortJS, orderedInsertB_length, ih]

theorem sortJS_pair (le : α → α → Bool) (a b : α) :
    sortJS le [a, b] = if le a b then [a, b] else [b, a] := by
  by_cases h : le a b <;> simp [sortJS, orderedInsertB, h]

theorem linesOf_length (groups : List (ℚ × List TextItem)) :
    (linesOf groups).length = groups.length := by
  simp [linesOf, sortJS_length]

theorem addToGroups_nomatch (tol : ℚ) (item : TextItem) :
    ∀ groups : List (ℚ × List TextItem), 0 < tol →
      (∀ g ∈ groups, ¬ |item.y - g.1| < tol) →
      addToGroups tol groups item = groups ++ [(item.y, [item])] := by
  intro groups
  induction groups with
  | nil => intro _ _; rfl
  | cons g rest ih =>
    intro htol hall
    obtain ⟨gy, v⟩ := g
    have h1 : ¬ |item.y - gy| < tol := hall (gy, v) (List.mem_cons_self _ _)
    have h2 : ¬ item.y = gy := by
      intro he
      exact h1 (by rw [he]; simpa using htol)
    simp only [addToGroups, if_neg h1, if_neg h2]
    rw [ih htol fun g' hg' => hall g' (List.mem_cons_of_mem _ hg')]
    rfl

theorem addToGroups_firstmatch (tol : ℚ) (item : TextItem) (g : ℚ × List TextItem)
    (suf : List (ℚ × List TextItem)) :
    ∀ pre : List (ℚ × List TextItem),
      (∀ g' ∈ pre, ¬ |item.y - g'.1| < tol) → |item.y - g.1| < tol →
      addToGroups tol (pre ++ g :: suf) item = pre ++ (g.1, g.2 ++ [item]) :: suf := by
  intro pre
  induction pre with
  | nil =>
    intro _ hg
    obtain ⟨gy, v⟩ := g
    simp only [List.nil_append, addToGroups, if_pos hg]
  | cons p pre ih =>
    intro hall hg
    obtain ⟨py, pv⟩ := p
    have h0 : 0 < tol := lt_of_le_of_lt (abs_nonneg _) hg
    have h1 : ¬ |item.y - py| < tol := hall (py, pv) (List.mem_cons_self _ _)
    have h2 : ¬ item.y = py := by
      intro he
      exact h1 (by rw [he]; simpa using h0)
    simp only [List.cons_append, addToGroups, if_neg h1, if_neg h2, List.append_eq]
    rw [ih (fun g' hg' => hall g' (List.mem_cons_of_mem _ hg')) hg]

theorem groupWellFormed_addToGroups (tol : ℚ) (htol : 0 < tol) (item : TextItem) :
    ∀ groups : List (ℚ × List TextItem),
      (∀ g ∈ groups, groupWellFormed tol g = true) →
      ∀ g ∈ addToGroups tol groups item, groupWellFormed tol g = true := by
  intro groups
  induction groups with
  | nil =>
    intro _ g hg
    simp only [addToGroups, List.mem_singleton] at hg
    subst hg
    simp [groupWellFormed, htol]
  | cons q rest ih =>
    intro hwf g hg
    obtain ⟨qy, qv⟩ := q
    by_cases h1 : |item.y - qy| < tol
    · simp only [addToGroups, if_pos h1] at hg
      rcases List.mem_cons.mp hg with rfl | hgr
      · have hq := hwf (qy, qv) (List.mem_cons_self _ _)
        unfold groupWellFormed at hq ⊢
        rw [Bool.and_eq_true] at hq ⊢
        obtain ⟨hqh, hqall⟩ := hq
        constructor
        · cases qv with
          | nil => exact Bool.noConfusion hqh
          | cons hd tl => rw [List.cons_append]; exact hqh
        · rw [List.all_eq_true] at hqall ⊢
          intro m hm
          rcases List.mem_append.mp hm with hm' | hm'
          · exact hqall m hm'
          · rw [List.mem_singleton] at hm'
            subst hm'
            simpa using h1
      · exact hwf g (List.mem_cons_of_mem _ hgr)
    · have h2 : ¬ item.y = qy := by
        intro he
        exact h1 (by rw [he]; simpa using htol)
      simp only [addToGroups, if_neg h1, if_neg h2] at hg
      rcases List.mem_cons.mp hg with rfl | hgr
      · exact hwf _ (List.mem_cons_self _ _)
      · exact ih (fun g' hg' => hwf g' (List.mem_cons_of_mem _ hg')) g hgr

theorem clusterItems_wf (tol : ℚ) (htol : 0 < tol) (items : List TextItem) :
    ∀ g ∈ clusterItems tol items, groupWellFormed tol g = true := by
  suffices h : ∀ (its : List TextItem) (groups : List (ℚ × List TextItem)),
      (∀ g ∈ groups, groupWellFormed tol g = true) →
      ∀ g ∈ List.foldl (addToGroups tol) groups its, groupWellFormed tol g = true by
    exact h items [] (by simp)
  intro its
  induction its with
  | nil => intro groups h; simpa using h
  | cons it its ih =>
    intro groups h
    rw [List.foldl_cons]
    exact ih _ (groupWellFormed_addToGroups tol htol it groups h)

theorem addToGroups_anchors (tol : ℚ) (item : TextItem) :
    ∀ groups : List (ℚ × List TextItem),
      (addToGroups tol groups item).map Prod.fst = groups.map Prod.fst
      ∨ ((∀ g ∈ groups, ¬ |item.y - g.1| < tol)
          ∧ (addToGroups tol groups item).map Prod.fst = groups.map Prod.fst ++ [item.y]) := by
  intro groups
  induction groups with
  | nil => exact Or.inr ⟨by simp, by simp [addToGroups]⟩
  | cons q rest ih =>
    obtain ⟨qy, qv⟩ := q
    by_cases h1 : |item.y - qy| < tol
    · exact Or.inl (by simp only [addToGroups, if_pos h1, List.map_cons])
    · by_cases h2 : item.y = qy
      · exact Or.inl (by simp only [addToGroups, if_neg h1, if_pos h2, List.map_cons])
      · rcases ih with hl | ⟨hall, heq⟩
        · exact Or.inl (by simp only [addToGroups, if_neg h1, if_neg h2, List.map_cons, hl])
        · refine Or.inr ⟨?_, ?_⟩
          · intro g hg
            rcases List.mem_cons.mp hg with rfl | hgr
            · exact h1
            · exact hall g hgr
          · simp only [addToGroups, if_neg h1, if_neg h2, List.map_cons, heq, List.cons_append]

theorem layoutStep_fst (opts : ResolvedOptions) (acc : String × List DebugRecord)
    (page : PageLayoutData) : (layoutStep opts acc page).1 = acc.1 ++ pageChunk opts page := by
  unfold layoutStep pageChunk
  by_cases hb : 1 < page.pageNumber <;>
    by_cases he : (sortJS itemLE page.textItems).isEmpty <;>
      simp [hb, he, String.append_assoc]

theorem foldl_layoutStep_fst (opts : ResolvedOptions) :
    ∀ (pages : List PageLayoutData) (acc : String × List DebugRecord),
      (List.foldl (layoutStep opts) acc pages).1 = acc.1 ++ concatMap (pageChunk opts) pages := by
  intro pages
  induction pages with
  | nil => intro acc; simp [concatMap]
  | cons p ps ih =>
    intro acc
    rw [List.foldl_cons, ih, layoutStep_fst, String.append_assoc]
    rfl

theorem reconstructLayout_fst_eq (pages : List PageLayoutData) (opts : ResolvedOptions) :
    (reconstructLayout pages opts).1 = concatMap (pageChunk opts) pages := by
  unfold reconstructLayout
  rw [foldl_layoutStep_fst]
  exact String.empty_append _

theorem foldl_flat_inner (items : List TextItem) :
    ∀ s : String,
      items.foldl (fun a it => a ++ it.str ++ (if it.hasEOL then "\n" else "")) s
        = s ++ concatMap (fun it => it.str ++ (if it.hasEOL then "\n" else "")) items := by
  induction items with
  | nil => intro s; simp [concatMap]
  | cons it items ih =>
    intro s
    rw [List.foldl_cons, ih]
    simp [concatMap, String.append_assoc]

theorem extractedTextOf_eq (doc : List CollectedPage) :
    extractedTextOf doc
      = concatMap
          (fun p => concatMap (fun it => it.str ++ (if it.hasEOL then "\n" else "")) p.textItems)
          doc := by
  unfold extractedTextOf
  suffices h : ∀ (d : List CollectedPage) (s : String),
      List.foldl
        (fun acc p =>
          p.textItems.foldl (fun a it => a ++ it.str ++ (if it.hasEOL then "\n" else "")) acc)
        s d
      = s ++ concatMap
          (fun p => concatMap (fun it => it.str ++ (if it.hasEOL then "\n" else "")) p.textItems)
          d by
    rw [h doc ""]
    exact String.empty_append _
  intro d
  induction d with
  | nil => intro s; simp [concatMap]
  | cons p d ih =>
    intro s
    rw [List.foldl_cons, foldl_flat_inner, ih, concatMap, String.append_assoc]

theorem renderLineGo_eq_claim :
    ∀ (line : List TextItem) (lm cwd : ℚ) (cursor : ℤ),
      renderLineGo lm cwd cursor line = renderLineClaimGo lm cwd cursor line := by
  intro line
  induction line with
  | nil => intro lm cwd cursor; rfl
  | cons item rest ih =>
    intro lm cwd cursor
    cases rest with
    | nil => rfl
    | cons next rest2 =>
      rw [renderLineGo, renderLineClaimGo]
      simp only [ih]

/-! ### Claim theorems -/

/-- C1: with a positive `yTolerance`, every row-group produced by the
clustering pass is anchored at the y of its first fragment and contains only
fragments strictly within the tolerance of that anchor; one clustering step
appends a fragment to the first matching group in creation order, leaving all
other groups untouched, and opens a new group anchored at the fragment's own y
when no group matches. -/
theorem row_clustering_invariant (tol : ℚ) (items : List TextItem)
    (groups pre suf : List (ℚ × List TextItem)) (g : ℚ × List TextItem) (item : TextItem)
    (htol : 0 < tol) :
    (clusterItems tol items).all (groupWellFormed tol) = true
    ∧ ((∀ g' ∈ pre, ¬ |item.y - g'.1| < tol) → |item.y - g.1| < tol →
        addToGroups tol (pre ++ g :: suf) item = pre ++ (g.1, g.2 ++ [item]) :: suf)
    ∧ ((∀ g' ∈ groups, ¬ |item.y - g'.1| < tol) →
        addToGroups tol groups item = groups ++ [(item.y, [item])]) := by
  refine ⟨List.all_eq_true.mpr (clusterItems_wf tol htol items), ?_, ?_⟩
  · intro hpre hg
    exact addToGroups_firstmatch tol item g suf pre hpre hg
  · intro hall
    exact addToGroups_nomatch tol item groups htol hall

/-- Witness for C1 at a concrete page. -/
theorem row_clustering_invariant_witness :
    (0:ℚ) < 2
    ∧ (clusterItems 2 [mkItem "A" 0 100, mkItem "B" 5 101]).all (groupWellFormed 2) = true :=
  ⟨by norm_num,
    (row_clustering_invariant 2 [mkItem "A" 0 100, mkItem "B" 5 101] [] [] [] (0, [])
      (mkItem "A" 0 100) (by norm_num)).1⟩

/-- C2: on a page with exactly two fragments at `y` and `y + d` and a positive
tolerance, the two fragments land in the same row iff `|d| < yTolerance`
(strict); in particular they are separated when `|d| = yTolerance`. -/
theorem row_tolerance_boundary (f₁ f₂ : TextItem) (tol d : ℚ)
    (htol : 0 < tol) (hd : f₂.y = f₁.y + d) :
    ((pageLines tol [f₁, f₂]).length = 1 ↔ |d| < tol) := by
  have key : ∀ a b : TextItem, |b.y - a.y| = |d| →
      ((linesOf (clusterItems tol [a, b])).length = 1 ↔ |d| < tol) := by
    intro a b hab
    by_cases hlt : |d| < tol
    · have h1 : |b.y - a.y| < tol := by rwa [hab]
      have hc : clusterItems tol [a, b] = [(a.y, [a, b])] := by
        show addToGroups tol (addToGroups tol [] a) b = _
        simp [addToGroups, h1]
      rw [hc, linesOf_length]
      simpa using hlt
    · have h1 : ¬ |b.y - a.y| < tol := by rwa [hab]
      have h2 : ¬ b.y = a.y := by
        intro he
        exact h1 (by rw [he]; simpa using htol)
      have hc : clusterItems tol [a, b] = [(a.y, [a]), (b.y, [b])] := by
        show addToGroups tol (addToGroups tol [] a) b = _
        simp [addToGroups, h1, h2]
      rw [hc, linesOf_length]
      simpa using hlt
  unfold pageLines
  rw [sortJS_pair]
  by_cases hle : itemLE f₁ f₂
  · rw [if_pos hle]
    refine key f₁ f₂ ?_
    rw [hd]
    congr 1
    ring
  · rw [if_neg hle]
    refine key f₂ f₁ ?_
    rw [hd]
    rw [show f₁.y - (f₁.y + d) = -d by ring, abs_neg]

/-- Witness for C2 with `d = 1 < 2 = yTolerance`. -/
theorem row_tolerance_boundary_witness :
    (0:ℚ) < 2
    ∧ ((pageLines 2 [mkItem "P" 0 100, mkItem "Q" 3 101]).length = 1 ↔ |(1:ℚ)| < 2) :=
  ⟨by norm_num,
    row_tolerance_boundary (mkItem "P" 0 100) (mkItem "Q" 3 101) 2 1 (by norm_num)
      (by show (101:ℚ) = 100 + 1; norm_num)⟩

/-- C10: after clustering, the anchors of any two distinct row-groups are at
least `yTolerance` apart (a new group opens only when the fragment's y is not
strictly within the tolerance of any existing anchor, and anchors never
move). -/
theorem row_anchor_separation (tol : ℚ) (items : List TextItem) :
    ((clusterItems tol items).map Prod.fst).Pairwise (fun a b => tol ≤ |a - b|) := by
  suffices h : ∀ (its : List TextItem) (groups : List (ℚ × List TextItem)),
      ((groups.map Prod.fst).Pairwise fun a b => tol ≤ |a - b|) →
      (((List.foldl (addToGroups tol) groups its).map Prod.fst).Pairwise
        fun a b => tol ≤ |a - b|) by
    exact h items [] (by simp)
  intro its
  induction its with
  | nil => intro groups h; simpa using h
  | cons it its ih =>
    intro groups h
    rw [List.foldl_cons]
    apply ih
    rcases addToGroups_anchors tol it groups with hl | ⟨hall, heq⟩
    · rwa [hl]
    · rw [heq, List.pairwise_append]
      refine ⟨h, by simp, ?_⟩
      intro a ha b hb
      rw [List.mem_singleton] at hb
      subst hb
      rcases List.mem_map.mp ha with ⟨g, hg, rfl⟩
      have hn := hall g hg
      rw [abs_sub_comm]
      exact not_lt.mp hn

/-- C3: the §8 concrete scenario — fragments "Name" at x=0 and "Age" at x=40
on the same y, tolerance 2, divisor 4 — yields a single row, "Age" targets
column 10, and the rendered page is exactly `"Name      Age\n"` (six spaces,
no look-ahead space). -/
theorem name_age_concrete :
    pageLines 2 [nameItem, ageItem] = [[nameItem, ageItem]]
    ∧ targetPos 0 4 nameItem = 0
    ∧ targetPos 0 4 ageItem = 10
    ∧ renderLine 0 4 [nameItem, ageItem] = "Name      Age"
    ∧ (reconstructLayout [⟨1, [nameItem, ageItem], vp0⟩] ⟨true, 2, 4, false⟩).1
        = "Name      Age\n" := by
  with_unfolding_all decide

/-- C4: within a row, the source's line loop coincides with the claimed
cursor discipline — the cursor becomes `targetColumn + length(content)` after
each fragment, exactly one extra space is emitted iff the next fragment's
target column exceeds the cursor by strictly between 0 and 3 (advancing the
cursor by exactly 1) — and each row is emitted with trailing whitespace
stripped and a single newline appended. -/
theorem lookahead_micro_spacing (lm cwd tol : ℚ) (cursor : ℤ) (line items : List TextItem) :
    renderLineGo lm cwd cursor line = renderLineClaimGo lm cwd cursor line
    ∧ renderPageBody tol cwd items
      = (pageLines tol items).foldl
          (fun acc l => if l.isEmpty then acc
            else acc ++ (trimEnd (renderLineClaimGo (leftmostX items) cwd 0 l) ++ "\n")) "" := by
  constructor
  · exact renderLineGo_eq_claim line lm cwd cursor
  · unfold renderPageBody
    simp only [renderLine, renderLineGo_eq_claim]

set_option maxRecDepth 100000 in
/-- C5: the reconstructed document decomposes page by page, each page
contributing its banner (exactly when its supplied number exceeds 1) followed
by its body; on the three-page "A"/"B"/"C" example the output is the first
page body, the page-2 banner, the second body, the page-3 banner, and the
third body — with exactly two occurrences of the separator pattern, one
"Page 2" and one "Page 3" label, and no banner before page 1. -/
theorem page_banner_assembly (pages : List PageLayoutData) (opts : ResolvedOptions) :
    (reconstructLayout pages opts).1 = concatMap (pageChunk opts) pages
    ∧ ((reconstructLayout abcPages ⟨true, 2, 4, false⟩).1
        = "A\n" ++ pageBanner 2 ++ "B\n" ++ pageBanner 3 ++ "C\n"
      ∧ pageBanner 2 = "\n\n" ++ eqRule ++ "\n" ++ "Page 2" ++ "\n" ++ eqRule ++ "\n\n"
      ∧ pageBanner 3 = "\n\n" ++ eqRule ++ "\n" ++ "Page 3" ++ "\n" ++ eqRule ++ "\n\n"
      ∧ countOccur bannerPattern (reconstructLayout abcPages ⟨true, 2, 4, false⟩).1.data = 2
      ∧ countOccur "\nPage 2\n".data (reconstructLayout abcPages ⟨true, 2, 4, false⟩).1.data = 1
      ∧ countOccur "\nPage 3\n".data (reconstructLayout abcPages ⟨true, 2, 4, false⟩).1.data = 1
      ∧ (reconstructLayout abcPages ⟨true, 2, 4, false⟩).1.data.head? = some 'A') := by
  constructor
  · exact reconstructLayout_fst_eq pages opts
  · with_unfolding_all decide

/-- C6: the debug flag never alters the computed output — the entry point's
result (flat text and, when layout is requested, the full structured bundle
including the layout text) is identical with debug enabled and disabled, and
the primary component of `reconstructLayout` is independent of the flag. -/
theorem debug_neutrality (doc : List CollectedPage) (il : Option Bool) (t c : Option ℚ)
    (pages : List PageLayoutData) (ilb : Bool) (tq cq : ℚ) (b₁ b₂ : Bool) :
    extractTextFromPdf doc ⟨il, t, c, some true⟩ = extractTextFromPdf doc ⟨il, t, c, some false⟩
    ∧ (reconstructLayout pages ⟨ilb, tq, cq, b₁⟩).1
        = (reconstructLayout pages ⟨ilb, tq, cq, b₂⟩).1 := by
  have hrec : ∀ (ps : List PageLayoutData) (i : Bool) (tv cv : ℚ) (d₁ d₂ : Bool),
      (reconstructLayout ps ⟨i, tv, cv, d₁⟩).1 = (reconstructLayout ps ⟨i, tv, cv, d₂⟩).1 := by
    intro ps i tv cv d₁ d₂
    rw [reconstructLayout_fst_eq, reconstructLayout_fst_eq]
    rfl
  refine ⟨?_, hrec pages ilb tq cq b₁ b₂⟩
  have h₁ : resolveOptions ⟨il, t, c, some true⟩
      = ⟨il.getD false, t.getD 2, c.getD 4, true⟩ := rfl
  have h₂ : resolveOptions ⟨il, t, c, some false⟩
      = ⟨il.getD false, t.getD 2, c.getD 4, false⟩ := rfl
  unfold extractTextFromPdf
  rw [h₁, h₂]
  cases hil : il.getD false
  · simp [hil]
  · simp [hil]
    rw [hrec]

set_option maxRecDepth 100000 in
/-- C7 (code evaluated at the claim's failing input): the entry point performs
no validation of the configuration — with `yTolerance = 0` it runs the whole
pipeline and returns a normal structured result instead of failing. -/
theorem no_config_validation :
    extractTextFromPdf [⟨[mkItem "N" 5 7], vp0⟩] ⟨some true, some 0, some 4, some false⟩
      = .layout ⟨"N", "N\n", 1, [⟨1, [mkItem "N" 5 7], vp0⟩], 1, 1⟩ := by
  with_unfolding_all decide

/-- C8 counterexample: the advisory sort is not a sort by descending y with
ascending x as secondary key — for A at (x=0, y=0) and B at (x=1, y=5), whose
y-coordinates differ by less than 10, the code orders by ascending x and
yields [A, B], while descending-y ordering yields [B, A]. -/
theorem advisory_sort_counterexample :
    sortJS itemLE [mkItem "A" 0 0, mkItem "B" 1 5] = [mkItem "A" 0 0, mkItem "B" 1 5]
    ∧ sortJS specSortLE [mkItem "A" 0 0, mkItem "B" 1 5] = [mkItem "B" 1 5, mkItem "A" 0 0]
    ∧ sortJS itemLE [mkItem "A" 0 0, mkItem "B" 1 5]
        ≠ sortJS specSortLE [mkItem "A" 0 0, mkItem "B" 1 5] := by
  with_unfolding_all decide

/-- C8 amended: the clustering pass processes the fragments in the order
produced by the stable sort under the source's comparator, which orders by
ascending x whenever the two fragments' y-coordinates differ (in absolute
value) by less than 10, and by descending y otherwise. -/
theorem advisory_sort_order (tol : ℚ) (items : List TextItem) (a b : TextItem) :
    pageLines tol items = linesOf (clusterItems tol (sortJS itemLE items))
    ∧ sortJS itemLE [a, b] = (if itemLE a b then [a, b] else [b, a])
    ∧ itemLE a b = (if |b.y - a.y| < 10 then decide (a.x ≤ b.x) else decide (b.y ≤ a.y)) := by
  refine ⟨rfl, sortJS_pair itemLE a b, ?_⟩
  by_cases h10 : |b.y - a.y| < 10
  · simp [itemLE, h10]
  · simp only [itemLE, if_neg h10]
    rw [decide_eq_decide]
    exact sub_nonpos

/-- C9 counterexample: the flat text is not the bare concatenation of the
fragments' contents — a single fragment "A" carrying the parser's `hasEOL`
flag produces the flat text `"A\n"`, not `"A"`. -/
theorem flat_text_eol_counterexample :
    extractTextFromPdf [⟨[⟨"A", 0, 0, "F1", true, 1, 2⟩], vp0⟩] ⟨none, none, none, none⟩
      = .flat "A\n"
    ∧ ("A\n" : String) ≠ "A" := by
  with_unfolding_all decide

/-- C9 amended: the flat text equals the concatenation, in parse order across
all pages, of each fragment's content followed by a newline exactly when the
fragment's `hasEOL` flag is set. -/
theorem flat_text_formula (doc : List CollectedPage) (options : PdfExtractionOptions) :
    resultText (extractTextFromPdf doc options)
      = concatMap
          (fun p => concatMap (fun it => it.str ++ (if it.hasEOL then "\n" else "")) p.textItems)
          doc := by
  rw [← extractedTextOf_eq]
  unfold extractTextFromPdf
  cases h : (resolveOptions options).includeLayout
  · simp [h, resultText]
  · simp [h, resultText]
